import Mathlib

/-!
Verification of the autothumb pipeline (frame extraction, AI frame analysis,
thumbnail composition, CLI orchestration) against its design specification.

The Python sources are shallowly embedded: Python ints are `Int`/`Nat`,
Python floats are `Rat` (the claims under study concern control flow and
exact arithmetic identities, not rounding), fallible code returns
`Except PyErr`, and the external tools (ffmpeg, ffprobe, the hosted model,
the font engine) are parameters or oracles at the call boundary.
-/

/-- Python exception classes relevant to this codebase, by constructor.
Distinct constructors model distinct (non-subclassing) exception types:
`ZeroDivisionError` is neither a `ValueError` nor a `RuntimeError`. -/
inductive PyErr where
  | valueError (msg : String)
  | keyError (msg : String)
  | jsonDecodeError (msg : String)
  | runtimeError (msg : String)
  | zeroDivisionError (msg : String)
  | indexError (msg : String)
  | typeError (msg : String)
  | attributeError (msg : String)
  | fileNotFoundError (msg : String)
deriving DecidableEq

/-- Message text carried by an exception, used when a handler re-wraps it. -/
def PyErr.msg : PyErr → String
  | .valueError m => m
  | .keyError m => m
  | .jsonDecodeError m => m
  | .runtimeError m => m
  | .zeroDivisionError m => m
  | .indexError m => m
  | .typeError m => m
  | .attributeError m => m
  | .fileNotFoundError m => m

/-- Python float division: raises `ZeroDivisionError` on a zero divisor,
otherwise divides exactly (floats modelled as rationals). -/
def pyDivFloat (a b : ℚ) : Except PyErr ℚ :=
  if b = 0 then .error (.zeroDivisionError "float division by zero") else .ok (a / b)

/-- Python `range(n)` for an `int` argument: empty when `n ≤ 0`. -/
def pyRange (n : ℤ) : List ℕ := List.range n.toNat

/-- Python list indexing `l[i]`: nonnegative indices from the front,
negative indices count from the end, anything else raises `IndexError`. -/
def pyIndex {α : Type} (l : List α) (i : ℤ) : Except PyErr α :=
  if h : 0 ≤ i ∧ i < l.length then
    .ok (l.get ⟨i.toNat, by omega⟩)
  else if h2 : -(l.length : ℤ) ≤ i ∧ i < 0 then
    .ok (l.get ⟨(i + l.length).toNat, by omega⟩)
  else .error (.indexError "list index out of range")

/-- Left-to-right effectful map over `Except`, mirroring a Python list
comprehension: the first exception raised escapes, nothing later runs. -/
def mapME {α β : Type} (f : α → Except PyErr β) : List α → Except PyErr (List β)
  | [] => .ok []
  | a :: as =>
    match f a with
    | .error e => .error e
    | .ok b =>
      match mapME f as with
      | .error e => .error e
      | .ok bs => .ok (b :: bs)

/-- Python string comparison `s < t` on code points, lexicographic,
a strict prefix comparing below the longer string. -/
def pyStrLt : List Char → List Char → Bool
  | _, [] => false
  | [], _ :: _ => true
  | x :: xs, y :: ys =>
    if x.toNat < y.toNat then true
    else if y.toNat < x.toNat then false
    else pyStrLt xs ys

/-- Insertion step of the model of Python `sorted` (ascending). -/
def insertStr (x : List Char) : List (List Char) → List (List Char)
  | [] => [x]
  | y :: ys => if pyStrLt x y then x :: y :: ys else y :: insertStr x ys

/-- Model of Python `sorted` on a list of strings: insertion sort under
the code-point order `pyStrLt`. -/
def pySortStrs (l : List (List Char)) : List (List Char) :=
  l.foldr insertStr []

/-- Little-endian decimal digits computed with the argument as fuel; this
structural definition lets the kernel evaluate it, and it agrees with
`Nat.digits 10` (proved below). -/
def decAux : ℕ → ℕ → List ℕ
  | 0, _ => []
  | _ + 1, 0 => []
  | fuel + 1, n + 1 => ((n + 1) % 10) :: decAux fuel ((n + 1) / 10)

/-- Big-endian decimal digits of a natural number (empty for zero). -/
def decDigits (n : ℕ) : List ℕ := (decAux n n).reverse

/-- Decimal digit list of `n` left-padded with zeros to width 4, the digit
content of Python `f"frame_{idx:04d}.jpg"` formatting (`%04d` pads to a
minimum width of 4 and never truncates). -/
def padDigits4 (n : ℕ) : List ℕ :=
  List.replicate (4 - (decDigits n).length) 0 ++ decDigits n

/-- Characters produced by Python `f"{n:04d}"` for a natural `n`. -/
def pad4 (n : ℕ) : List Char := (padDigits4 n).map Nat.digitChar

/-- Path of the idx-th extracted frame,
`os.path.join(output_dir, f"frame_{idx:04d}.jpg")`. -/
def framePathChars (dir : List Char) (idx : ℕ) : List Char :=
  dir ++ ('/' :: ("frame_".data ++ pad4 idx ++ ".jpg".data))

/-- Strict big-endian comparison on digit lists, same shape as `pyStrLt`. -/
def lexNatLt : List ℕ → List ℕ → Bool
  | _, [] => false
  | [], _ :: _ => true
  | x :: xs, y :: ys =>
    if x < y then true
    else if y < x then false
    else lexNatLt xs ys

/-- Value of a big-endian digit list. -/
def valBE : List ℕ → ℕ
  | [] => 0
  | d :: ds => d * 10 ^ ds.length + valBE ds

-- Basic facts about the decimal representation.

theorem decAux_eq_digits : ∀ fuel n, n ≤ fuel → decAux fuel n = Nat.digits 10 n := by
  intro fuel
  induction fuel with
  | zero =>
    intro n hn
    interval_cases n
    simp [decAux]
  | succ fuel ih =>
    intro n hn
    match n with
    | 0 => simp [decAux]
    | m + 1 =>
      rw [decAux, Nat.digits_def' (by norm_num : (1:ℕ) < 10) (Nat.succ_pos m)]
      congr 1
      exact ih _ (by
        have : (m + 1) / 10 < m + 1 := Nat.div_lt_self (Nat.succ_pos m) (by norm_num)
        omega)

theorem decDigits_eq (n : ℕ) : decDigits n = (Nat.digits 10 n).reverse := by
  unfold decDigits
  rw [decAux_eq_digits n n le_rfl]

theorem valBE_append_singleton (L : List ℕ) (d : ℕ) :
    valBE (L ++ [d]) = 10 * valBE L + d := by
  induction L with
  | nil => simp [valBE]
  | cons x xs ih =>
    simp only [List.cons_append, valBE, ih, List.length_append, List.length_cons,
      List.length_nil, List.append_eq]
    ring

theorem valBE_reverse (L : List ℕ) : valBE L.reverse = Nat.ofDigits 10 L := by
  induction L with
  | nil => simp [valBE, Nat.ofDigits]
  | cons d ds ih =>
    rw [List.reverse_cons, valBE_append_singleton, ih, Nat.ofDigits_cons]
    ring

theorem valBE_decDigits (n : ℕ) : valBE (decDigits n) = n := by
  rw [decDigits_eq, valBE_reverse, Nat.ofDigits_digits]

theorem valBE_replicate_zero_append (k : ℕ) (L : List ℕ) :
    valBE (List.replicate k 0 ++ L) = valBE L := by
  induction k with
  | zero => simp
  | succ k ih => simp [List.replicate_succ, valBE, ih]

theorem valBE_padDigits4 (n : ℕ) : valBE (padDigits4 n) = n := by
  rw [padDigits4, valBE_replicate_zero_append, valBE_decDigits]

theorem decDigits_len_le_four {n : ℕ} (hn : n ≤ 9999) : (decDigits n).length ≤ 4 := by
  rw [decDigits_eq, List.length_reverse]
  rcases Nat.eq_zero_or_pos n with h0 | hpos
  · simp [h0]
  · rw [Nat.digits_len 10 n (by norm_num) (Nat.pos_iff_ne_zero.mp hpos)]
    have : Nat.log 10 n < 4 := by
      apply Nat.log_lt_of_lt_pow (Nat.pos_iff_ne_zero.mp hpos)
      calc n ≤ 9999 := hn
        _ < 10 ^ 4 := by norm_num
    omega

theorem padDigits4_length {n : ℕ} (hn : n ≤ 9999) : (padDigits4 n).length = 4 := by
  have h := decDigits_len_le_four hn
  simp only [padDigits4, List.length_append, List.length_replicate]
  omega

theorem padDigits4_digit_lt {n d : ℕ} (hd : d ∈ padDigits4 n) : d < 10 := by
  rcases List.mem_append.mp hd with h | h
  · have := List.eq_of_mem_replicate h
    omega
  · rw [decDigits_eq, List.mem_reverse] at h
    exact Nat.digits_lt_base (by norm_num) h

theorem valBE_lt_pow {L : List ℕ} (h : ∀ d ∈ L, d < 10) : valBE L < 10 ^ L.length := by
  induction L with
  | nil => simp [valBE]
  | cons d ds ih =>
    have hd : d < 10 := h d (List.mem_cons_self d ds)
    have hds : valBE ds < 10 ^ ds.length := ih (fun x hx => h x (List.mem_cons_of_mem d hx))
    simp only [valBE, List.length_cons, pow_succ]
    calc d * 10 ^ ds.length + valBE ds
        < d * 10 ^ ds.length + 10 ^ ds.length := by omega
      _ = (d + 1) * 10 ^ ds.length := by ring
      _ ≤ 10 * 10 ^ ds.length := by
          have : d + 1 ≤ 10 := hd
          exact Nat.mul_le_mul_right _ this
      _ = 10 ^ ds.length * 10 := by ring

theorem lexNatLt_of_valBE_lt :
    ∀ a b : List ℕ, a.length = b.length → (∀ d ∈ b, d < 10) →
      valBE a < valBE b → lexNatLt a b = true := by
  intro a
  induction a with
  | nil =>
    intro b hlen _ hval
    match b with
    | [] => simp [valBE] at hval
  | cons x xs ih =>
    intro b hlen hb hval
    match b with
    | y :: ys =>
      simp only [List.length_cons, Nat.succ_inj] at hlen
      by_cases hxy : x < y
      · simp [lexNatLt, hxy]
      · by_cases hyx : y < x
        · exfalso
          have hys : valBE ys < 10 ^ ys.length :=
            valBE_lt_pow (fun d hd => hb d (List.mem_cons_of_mem y hd))
          simp only [valBE] at hval
          have hx : y + 1 ≤ x := hyx
          have h1 : (y + 1) * 10 ^ ys.length ≤ x * 10 ^ xs.length := by
            rw [hlen]
            exact Nat.mul_le_mul_right _ hx
          nlinarith [valBE xs, valBE ys]
        · have hxyeq : x = y := by omega
          subst hxyeq
          simp only [lexNatLt, if_neg (lt_irrefl x)]
          apply ih ys hlen (fun d hd => hb d (List.mem_cons_of_mem x hd))
          simp only [valBE, hlen] at hval
          omega

theorem digitChar_toNat_lt {a b : ℕ} (hab : a < b) (hb : b < 10) :
    (Nat.digitChar a).toNat < (Nat.digitChar b).toNat := by
  interval_cases b <;> interval_cases a <;> decide

theorem pyStrLt_map_digitChar :
    ∀ a b : List ℕ, (∀ d ∈ a, d < 10) → (∀ d ∈ b, d < 10) →
      lexNatLt a b = true → pyStrLt (a.map Nat.digitChar) (b.map Nat.digitChar) = true := by
  intro a
  induction a with
  | nil =>
    intro b _ _ hlex
    match b with
    | [] => simp [lexNatLt] at hlex
    | y :: ys => simp [pyStrLt]
  | cons x xs ih =>
    intro b ha hb hlex
    match b with
    | [] => simp [lexNatLt] at hlex
    | y :: ys =>
      have hx : x < 10 := ha x (List.mem_cons_self x xs)
      have hy : y < 10 := hb y (List.mem_cons_self y ys)
      by_cases hxy : x < y
      · have := digitChar_toNat_lt hxy hy
        simp [pyStrLt, this]
      · by_cases hyx : y < x
        · simp [lexNatLt, hxy, hyx] at hlex
        · have hxyeq : x = y := by omega
          subst hxyeq
          simp only [lexNatLt, if_neg (lt_irrefl x)] at hlex
          simp only [List.map_cons, pyStrLt, if_neg (lt_irrefl (Nat.digitChar x).toNat)]
          exact ih ys (fun d hd => ha d (List.mem_cons_of_mem x hd))
            (fun d hd => hb d (List.mem_cons_of_mem x hd)) hlex

theorem pyStrLt_cons_same (c : Char) (xs ys : List Char) :
    pyStrLt (c :: xs) (c :: ys) = pyStrLt xs ys := by
  simp [pyStrLt]

theorem pyStrLt_append_left (p xs ys : List Char) :
    pyStrLt (p ++ xs) (p ++ ys) = pyStrLt xs ys := by
  induction p with
  | nil => rfl
  | cons c cs ih => simpa [pyStrLt_cons_same] using ih

theorem pyStrLt_append_of_length_eq :
    ∀ xs ys s t : List Char, xs.length = ys.length → pyStrLt xs ys = true →
      pyStrLt (xs ++ s) (ys ++ t) = true := by
  intro xs
  induction xs with
  | nil =>
    intro ys s t hlen hlt
    match ys with
    | [] => simp [pyStrLt] at hlt
  | cons x xs ih =>
    intro ys s t hlen hlt
    match ys with
    | y :: ys =>
      simp only [List.length_cons, Nat.succ_inj] at hlen
      by_cases h1 : x.toNat < y.toNat
      · simp [pyStrLt, h1]
      · by_cases h2 : y.toNat < x.toNat
        · simp [pyStrLt, h1, h2] at hlt
        · simp only [pyStrLt, if_neg h1, if_neg h2] at hlt
          simp only [List.cons_append, pyStrLt, if_neg h1, if_neg h2]
          exact ih ys s t hlen hlt

theorem pad4_lt {i j : ℕ} (hij : i < j) (hj : j ≤ 9999) :
    pyStrLt (pad4 i) (pad4 j) = true := by
  apply pyStrLt_map_digitChar _ _ (fun d hd => padDigits4_digit_lt hd)
    (fun d hd => padDigits4_digit_lt hd)
  apply lexNatLt_of_valBE_lt
  · rw [padDigits4_length (le_of_lt (lt_of_lt_of_le hij hj)), padDigits4_length hj]
  · exact fun d hd => padDigits4_digit_lt hd
  · rw [valBE_padDigits4, valBE_padDigits4]
    exact hij

theorem framePathChars_lt {dir : List Char} {i j : ℕ} (hij : i < j) (hj : j ≤ 9999) :
    pyStrLt (framePathChars dir i) (framePathChars dir j) = true := by
  unfold framePathChars
  have hassoc : ∀ n : ℕ, dir ++ ('/' :: ("frame_".data ++ pad4 n ++ ".jpg".data))
      = (dir ++ ('/' :: "frame_".data)) ++ (pad4 n ++ ".jpg".data) := by
    intro n
    simp
  rw [hassoc i, hassoc j, pyStrLt_append_left]
  apply pyStrLt_append_of_length_eq
  · unfold pad4
    rw [List.length_map, List.length_map,
      padDigits4_length (le_of_lt (lt_of_lt_of_le hij hj)), padDigits4_length hj]
  · exact pad4_lt hij hj

/-!
Embedding of `VideoProcessor.extract_frames` (src/autothumb/core/video.py).
The ffmpeg subprocess boundary is modelled by two oracles indexed by the
1-based frame number: `exitOk i` is whether the i-th ffmpeg invocation exits
with status zero, and `fileCreated i` is whether it left the output file on
disk (the code checks both: `check=True` and `os.path.exists`).
-/

/-- Outcome of one `extract_frames` run: the timestamps at which an ffmpeg
extraction call was actually issued, and the returned value or the raised
exception. -/
structure ExtractTrace where
  calls : List ℚ
  result : Except PyErr (List (List Char))

/-- Timestamp list comprehension
`[skip_start + (i * usable / (num_frames - 1)) for i in range(num_frames)]`;
each element performs a float division whose divisor is `num_frames - 1`. -/
def timestampsE (skipStart usable : ℚ) (numFrames : ℤ) : Except PyErr (List ℚ) :=
  mapME
    (fun (i : ℕ) =>
      match pyDivFloat ((i : ℚ) * usable) (((numFrames - 1 : ℤ) : ℚ)) with
      | .error e => .error e
      | .ok q => .ok (skipStart + q))
    (pyRange numFrames)

/-- Python `enumerate(timestamps, start=1)`. -/
def enumFrom (k : ℕ) : List ℚ → List (ℕ × ℚ)
  | [] => []
  | t :: ts => (k, t) :: enumFrom (k + 1) ts

/-- The per-frame extraction loop of `extract_frames`: one ffmpeg call per
timestamp, aborting the batch with a wrapped `RuntimeError` on the first
non-zero exit; files that exist afterwards are collected, and after the loop
an empty collection raises `RuntimeError` while a non-empty one is returned
sorted. -/
def extractLoop (exitOk fileCreated : ℕ → Bool) (dir : List Char) :
    List (ℕ × ℚ) → List ℚ → List (List Char) → ExtractTrace
  | [], calls, collected =>
    ⟨calls,
      if collected.isEmpty then .error (.runtimeError "No frames were extracted")
      else .ok (pySortStrs collected)⟩
  | (idx, t) :: rest, calls, collected =>
    if exitOk idx then
      if fileCreated idx then
        extractLoop exitOk fileCreated dir rest (calls ++ [t])
          (collected ++ [framePathChars dir idx])
      else extractLoop exitOk fileCreated dir rest (calls ++ [t]) collected
    else ⟨calls ++ [t], .error (.runtimeError "FFmpeg failed to extract frames: ")⟩

/-- `VideoProcessor.extract_frames(num_frames, output_dir, skip_start_seconds,
skip_end_seconds)`: validates the usable span, computes the evenly spaced
timestamps, then runs the extraction loop. -/
def extract_frames (duration : ℚ) (numFrames : ℤ) (skipStart skipEnd : ℚ)
    (exitOk fileCreated : ℕ → Bool) (dir : List Char) : ExtractTrace :=
  let usable := duration - skipStart - skipEnd
  if usable ≤ 0 then
    ⟨[], .error (.valueError "Video too short after skipping start/end")⟩
  else
    match timestampsE skipStart usable numFrames with
    | .error e => ⟨[], .error e⟩
    | .ok ts => extractLoop exitOk fileCreated dir (enumFrom 1 ts) [] []

/-- Frame-extraction step of the CLI `generate` command
(src/autothumb/cli/main.py): the unvalidated `--frames N` argument is passed
straight to `extract_frames`, which uses its default head/tail skips of 2.0s. -/
def generateExtractStep (framesArg : ℤ) (duration : ℚ)
    (exitOk fileCreated : ℕ → Bool) (dir : List Char) : ExtractTrace :=
  extract_frames duration framesArg 2 2 exitOk fileCreated dir

/-- Chronological (extraction-order) list of frame paths for a run that
extracts `n` frames into `dir`: 1-based zero-padded sequence numbers. -/
def chronPaths (dir : List Char) (n : ℕ) : List (List Char) :=
  (List.range n).map (fun i => framePathChars dir (i + 1))

-- Supporting lemmas about the extraction embedding.

theorem mapME_ok_of_forall {α β : Type} {f : α → Except PyErr β} {g : α → β}
    (l : List α) (h : ∀ a ∈ l, f a = .ok (g a)) : mapME f l = .ok (l.map g) := by
  induction l with
  | nil => rfl
  | cons a as ih =>
    simp only [mapME, h a (List.mem_cons_self a as),
      ih (fun x hx => h x (List.mem_cons_of_mem a hx)), List.map_cons]

theorem mapME_error_mem {α β : Type} {f : α → Except PyErr β} {e : PyErr} :
    ∀ l : List α, mapME f l = .error e → ∃ a ∈ l, f a = .error e := by
  intro l
  induction l with
  | nil => intro h; simp [mapME] at h
  | cons a as ih =>
    intro h
    simp only [mapME] at h
    match hfa : f a with
    | .error e2 =>
      rw [hfa] at h
      exact ⟨a, List.mem_cons_self a as, by { cases h; exact hfa }⟩
    | .ok b =>
      rw [hfa] at h
      match hrest : mapME f as with
      | .error e2 =>
        rw [hrest] at h
        cases h
        obtain ⟨x, hx, hfx⟩ := ih hrest
        exact ⟨x, List.mem_cons_of_mem a hx, hfx⟩
      | .ok bs => rw [hrest] at h; cases h

theorem timestampsE_error_is_zeroDivision {skipStart usable : ℚ} {numFrames : ℤ}
    {e : PyErr} (h : timestampsE skipStart usable numFrames = .error e) :
    e = .zeroDivisionError "float division by zero" := by
  obtain ⟨i, _, hfi⟩ := mapME_error_mem _ h
  unfold pyDivFloat at hfi
  by_cases hden : (((numFrames - 1 : ℤ) : ℚ)) = 0
  · rw [if_pos hden] at hfi
    simp only [Except.error.injEq] at hfi
    exact hfi.symm
  · rw [if_neg hden] at hfi
    simp at hfi

theorem timestampsE_ok_of_ne_one {skipStart usable : ℚ} {numFrames : ℤ}
    (h : numFrames ≠ 1) :
    timestampsE skipStart usable numFrames
      = .ok ((pyRange numFrames).map
          (fun (i : ℕ) => skipStart + (i : ℚ) * usable / ((numFrames : ℚ) - 1))) := by
  apply mapME_ok_of_forall
  intro i _
  have hden : (((numFrames - 1 : ℤ) : ℚ)) ≠ 0 := by
    intro hc
    apply h
    have : (numFrames - 1 : ℤ) = 0 := by exact_mod_cast hc
    omega
  simp only [pyDivFloat, if_neg hden]
  congr 1
  push_cast
  ring

theorem extractLoop_result_not_valueError (exitOk fileCreated : ℕ → Bool)
    (dir : List Char) :
    ∀ (pairs : List (ℕ × ℚ)) (calls : List ℚ) (collected : List (List Char)) (m : String),
      (extractLoop exitOk fileCreated dir pairs calls collected).result
        ≠ .error (.valueError m) := by
  intro pairs
  induction pairs with
  | nil =>
    intro calls collected m h
    simp only [extractLoop] at h
    by_cases hc : collected.isEmpty <;> simp [hc] at h
  | cons p rest ih =>
    intro calls collected m h
    obtain ⟨idx, t⟩ := p
    simp only [extractLoop] at h
    by_cases h1 : exitOk idx
    · by_cases h2 : fileCreated idx
      · rw [if_pos h1, if_pos h2] at h; exact ih _ _ m h
      · rw [if_pos h1, if_neg h2] at h; exact ih _ _ m h
    · rw [if_neg h1] at h; cases h

theorem extractLoop_all_ok (exitOk fileCreated : ℕ → Bool) (dir : List Char)
    (hok : ∀ i, exitOk i = true) (hfc : ∀ i, fileCreated i = true) :
    ∀ (pairs : List (ℕ × ℚ)) (calls : List ℚ) (collected : List (List Char)),
      extractLoop exitOk fileCreated dir pairs calls collected
        = ⟨calls ++ pairs.map Prod.snd,
            if (collected ++ pairs.map (fun p => framePathChars dir p.1)).isEmpty then
              .error (.runtimeError "No frames were extracted")
            else .ok (pySortStrs (collected ++ pairs.map (fun p => framePathChars dir p.1)))⟩ := by
  intro pairs
  induction pairs with
  | nil => intro calls collected; simp [extractLoop]
  | cons p rest ih =>
    intro calls collected
    obtain ⟨idx, t⟩ := p
    simp only [extractLoop, hok idx, if_pos, hfc idx, List.map_cons]
    rw [ih]
    simp

theorem pySortStrs_length (l : List (List Char)) : (pySortStrs l).length = l.length := by
  have hins : ∀ (x : List Char) (ys : List (List Char)),
      (insertStr x ys).length = ys.length + 1 := by
    intro x ys
    induction ys with
    | nil => rfl
    | cons y ys ih =>
      simp only [insertStr]
      by_cases h : pyStrLt x y
      · simp [h]
      · simp [h, ih]
  unfold pySortStrs
  induction l with
  | nil => rfl
  | cons x xs ih => simp [List.foldr_cons, hins, ih]

theorem pySortStrs_of_pairwise :
    ∀ l : List (List Char),
      List.Pairwise (fun a b => pyStrLt a b = true) l → pySortStrs l = l := by
  intro l
  induction l with
  | nil => intro _; rfl
  | cons x xs ih =>
    intro hp
    have htail := (List.pairwise_cons.mp hp).2
    have hhead := (List.pairwise_cons.mp hp).1
    unfold pySortStrs at ih ⊢
    rw [List.foldr_cons, ih htail]
    match xs with
    | [] => rfl
    | y :: ys =>
      simp only [insertStr, hhead y (List.mem_cons_self y ys), if_pos]

theorem enumFrom_map_snd (k : ℕ) (ts : List ℚ) : (enumFrom k ts).map Prod.snd = ts := by
  induction ts generalizing k with
  | nil => rfl
  | cons t ts ih => simp [enumFrom, ih]

theorem enumFrom_append_singleton (k : ℕ) (ts : List ℚ) (t : ℚ) :
    enumFrom k (ts ++ [t]) = enumFrom k ts ++ [(k + ts.length, t)] := by
  induction ts generalizing k with
  | nil => simp [enumFrom]
  | cons s ss ih =>
    simp only [List.cons_append, enumFrom, List.length_cons, List.append_eq]
    rw [ih (k + 1)]
    have h1 : k + 1 + ss.length = k + (ss.length + 1) := by omega
    rw [h1]

theorem enumFrom_range_map (k : ℕ) (f : ℕ → ℚ) (n : ℕ) :
    enumFrom k ((List.range n).map f)
      = (List.range n).map (fun i => (i + k, f i)) := by
  induction n with
  | zero => rfl
  | succ n ih =>
    rw [List.range_succ]
    simp only [List.map_append, List.map_cons, List.map_nil]
    rw [enumFrom_append_singleton, ih]
    simp only [List.length_map, List.length_range]
    rw [Nat.add_comm k n]

/-!
Embedding of `FrameAnalyzer.analyze_frames` (src/autothumb/core/analyzer.py),
from the point where the model's response text is in hand. The hosted model
and `json.loads` are external: the response text is a parameter, and the
JSON parser is a parameter `loads` returning the parsed value of the
extracted span (JSON numbers are modelled as integers, which covers every
value the claims exercise).
-/

/-- JSON values as produced by `json.loads`. -/
inductive JVal where
  | null
  | jbool (b : Bool)
  | num (n : ℤ)
  | str (s : String)
  | arr (elems : List JVal)
  | obj (fields : List (String × JVal))

/-- Record returned by `analyze_frames` (a Python dict with fixed keys). -/
structure FrameAnalysis where
  best_frame_index : ℤ
  best_frame_path : String
  reasoning : JVal
  scores : JVal
  raw_response : String

/-- Whether the text contains a `{` with some `}` after it, the condition
under which `re.search(r'\{.*\}', text, re.DOTALL)` finds a match. -/
def hasBracePair : List Char → Bool
  | [] => false
  | c :: rest => (c = '{' && rest.contains '}') || hasBracePair rest

/-- Prefix of `cs` up to and including its last `}`. -/
def takeToLastRBrace (cs : List Char) : List Char :=
  ((cs.reverse.dropWhile (fun c => !(c = '}'))).reverse)

/-- Span matched by `re.search(r'\{.*\}', text, re.DOTALL)`: leftmost `{`
that still has a `}` after it, then greedily out to the last `}`. -/
def reSearchBrace : List Char → Option (List Char)
  | [] => none
  | c :: rest =>
    if c = '{' && rest.contains '}' then some ('{' :: takeToLastRBrace rest)
    else reSearchBrace rest

/-- Python `analysis.get(key, default)`: requires a dict receiver
(anything else raises `AttributeError`, e.g. when the parsed JSON was a
list), first binding wins. -/
def pyDictGet (j : JVal) (key : String) (dflt : JVal) : Except PyErr JVal :=
  match j with
  | .obj fields => .ok ((fields.lookup key).getD dflt)
  | _ => .error (.attributeError "object has no attribute get")

/-- Coercion of a value used as a Python list index: ints pass through,
bools count as 0/1, anything else raises `TypeError`. -/
def asIndex : JVal → Except PyErr ℤ
  | .num n => .ok n
  | .jbool b => .ok (if b then 1 else 0)
  | _ => .error (.typeError "list indices must be integers or slices")

/-- Construction of the returned dict of `analyze_frames`: read
`best_frame_index` (default 0), index `frame_paths` with it, then read
`reasoning` (default `""`) and `frames` (default `[]`). -/
def buildRecord (frame_paths : List String) (response_text : String)
    (analysis : JVal) : Except PyErr FrameAnalysis := do
  let bi ← pyDictGet analysis "best_frame_index" (.num 0)
  let i ← asIndex bi
  let p ← pyIndex frame_paths i
  let reas ← pyDictGet analysis "reasoning" (.str "")
  let sc ← pyDictGet analysis "frames" (.arr [])
  pure ⟨i, p, reas, sc, response_text⟩

/-- The `try`/`except` envelope of `analyze_frames`: every exception raised
inside the block is re-raised as `RuntimeError("Failed to analyze frames: ...")`. -/
def wrapTry {α : Type} : Except PyErr α → Except PyErr α
  | .error e => .error (.runtimeError ("Failed to analyze frames: " ++ e.msg))
  | .ok a => .ok a

/-- `FrameAnalyzer.analyze_frames(frame_paths, ...)` from the model response
on: empty input raises `ValueError` before the try block; inside it, the
brace-delimited span is parsed by `loads` when present, otherwise the
documented fallback dict is used; the result dict is then assembled. -/
def analyze_frames (frame_paths : List String) (response_text : String)
    (loads : String → Except Unit JVal) : Except PyErr FrameAnalysis :=
  if frame_paths.isEmpty then
    .error (.valueError "No frames provided for analysis")
  else
    wrapTry
      (match reSearchBrace response_text.data with
       | some span =>
         match loads (String.mk span) with
         | .error _ => .error (.jsonDecodeError "Expecting value")
         | .ok analysis => buildRecord frame_paths response_text analysis
       | none =>
         buildRecord frame_paths response_text
           (JVal.obj [("best_frame_index", .num 0), ("reasoning", .str response_text),
             ("frames", .arr [])]))

/-!
Embedding of `ThumbnailComposer._wrap_text` and the style handling of
`ThumbnailComposer.compose` (src/autothumb/core/composer.py). The font
engine is external: text measurement (`font.getbbox` width) is a parameter.
-/

/-- Python `str.split()` with no argument: split on whitespace runs and
drop empty pieces. -/
def splitWsGo : List Char → List Char → List (List Char)
  | [], acc => if acc.isEmpty then [] else [acc.reverse]
  | c :: rest, acc =>
    if c.isWhitespace then
      if acc.isEmpty then splitWsGo rest [] else acc.reverse :: splitWsGo rest []
    else splitWsGo rest (c :: acc)

/-- Word list of a text, as `text.split()` produces it. -/
def wordsOf (text : String) : List String :=
  (splitWsGo text.data []).map (fun cs => String.mk cs)

/-- Greedy accumulation loop of `_wrap_text`: try the current line extended
by the next word; keep accumulating while the measured width fits, flush
the current line on overflow and start over from the offending word. -/
def wrapGo (measure : String → ℤ) (maxWidth : ℤ) :
    List String → List String → List String → List String
  | [], currentLine, lines =>
    if currentLine.isEmpty then lines
    else lines ++ [String.intercalate " " currentLine]
  | w :: ws, currentLine, lines =>
    if measure (String.intercalate " " (currentLine ++ [w])) ≤ maxWidth then
      wrapGo measure maxWidth ws (currentLine ++ [w]) lines
    else if currentLine.isEmpty then
      wrapGo measure maxWidth ws [w] lines
    else
      wrapGo measure maxWidth ws [w] (lines ++ [String.intercalate " " currentLine])

/-- `ThumbnailComposer._wrap_text(text, font, max_width)` with the font
abstracted into the width-measure function. -/
def wrap_text (measure : String → ℤ) (text : String) (maxWidth : ℤ) : List String :=
  wrapGo measure maxWidth (wordsOf text) [] []

/-- Maximum line width used by `compose`: `int(resolution[0] * 0.9)`.
For every width the CLI can pass (720, 1080, 1280, 1920) the float product
is exact, so integer arithmetic is faithful there. -/
def composeMaxWidth (width : ℕ) : ℕ := 9 * width / 10

/-- Values stored in a style preset dict. -/
inductive StyleVal where
  | int (n : ℤ)
  | rgb (c : ℤ × ℤ × ℤ)
  | noneVal
  | strVal (s : String)
  | opacity (q : ℚ)
  | boolVal (b : Bool)
deriving DecidableEq

/-- Style dicts, keyed by field name (Python dict keys are unique, so a
finite map abstracts the dict faithfully for lookup and update). -/
def StyleDict : Type := String → Option StyleVal

/-- The `youtube` preset of `ThumbnailComposer.STYLES`. -/
def youtubeStyle : StyleDict := fun k =>
  if k = "font_size_main" then some (.int 72)
  else if k = "font_size_sub" then some (.int 36)
  else if k = "text_color" then some (.rgb (255, 255, 255))
  else if k = "outline_color" then some (.rgb (0, 0, 0))
  else if k = "outline_width" then some (.int 4)
  else if k = "position" then some (.strVal "center")
  else if k = "background_opacity" then some (.opacity (3/10))
  else if k = "shadow" then some (.boolVal true)
  else if k = "bold" then some (.boolVal true)
  else none

/-- Style handling of `compose`: `style = self.style.copy()` followed by
`style.update(custom_style)` when overrides are given. The first component
is the effective style used for this call, the second is the composer's
stored preset after the call: the update hits the copy, never the stored
dict. -/
def composeStyleMerge (stored : StyleDict) (custom : Option StyleDict) :
    StyleDict × StyleDict :=
  match custom with
  | none => (stored, stored)
  | some c => (fun k => match c k with | some v => some v | none => stored k, stored)

/-!
Embedding of the resolution handling of the CLI `generate` command
(src/autothumb/cli/main.py) and of the frame-rate computation in
`VideoProcessor._get_metadata` (src/autothumb/core/video.py).
-/

/-- The CLI resolution table `{"720p": (1280, 720), "1080p": (1920, 1080)}`;
`click.Choice` admits no other name. -/
def res_map (r : String) : Option (ℤ × ℤ) :=
  if r = "720p" then some (1280, 720)
  else if r = "1080p" then some (1920, 1080)
  else none

/-- Target-resolution selection of `generate`: for a vertical source
(height strictly greater than width) the base pair is swapped, otherwise
it is used unchanged. -/
def generateTargetResolution (resolution : String) (videoWidth videoHeight : ℤ) :
    Option (ℤ × ℤ) :=
  match res_map resolution with
  | none => none
  | some base => some (if videoHeight > videoWidth then (base.2, base.1) else base)

/-- Python `str.split(sep)` for a one-character separator: keeps empty
pieces, always returns at least one piece. -/
def splitOnCharGo (sep : Char) : List Char → List Char → List (List Char)
  | [], acc => [acc.reverse]
  | c :: rest, acc =>
    if c = sep then acc.reverse :: splitOnCharGo sep rest []
    else splitOnCharGo sep rest (c :: acc)

/-- Python `float(s)` restricted to unsigned decimal literals: a non-empty
all-digit string parses to its value, anything else raises `ValueError`
(a faithful restriction of CPython behaviour to the inputs in scope). -/
def pyFloatDigits (cs : List Char) : Except PyErr ℚ :=
  if cs ≠ [] ∧ cs.all Char.isDigit then
    .ok ((cs.foldl (fun acc c => 10 * acc + (c.toNat - 48)) 0 : ℕ) : ℚ)
  else .error (.valueError "could not convert string to float")

/-- The fps computation of `_get_metadata`:
`fps_parts = fps_str.split("/"); fps = float(fps_parts[0]) / float(fps_parts[1])`. -/
def fpsFromStr (fps_str : List Char) : Except PyErr ℚ :=
  let parts := splitOnCharGo '/' fps_str []
  match pyIndex parts 0 with
  | .error e => .error e
  | .ok p0 =>
    match pyIndex parts 1 with
    | .error e => .error e
    | .ok p1 =>
      match pyFloatDigits p0 with
      | .error e => .error e
      | .ok a =>
        match pyFloatDigits p1 with
        | .error e => .error e
        | .ok b => pyDivFloat a b

/-- The `except` clause of `_get_metadata`: `json.JSONDecodeError`,
`KeyError` and `ValueError` are re-raised as
`RuntimeError("Failed to parse video metadata: ...")`; every other
exception — in particular `ZeroDivisionError` — propagates unchanged. -/
def metadataCatch {α : Type} : Except PyErr α → Except PyErr α
  | .error (.valueError m) => .error (.runtimeError ("Failed to parse video metadata: " ++ m))
  | .error (.keyError m) => .error (.runtimeError ("Failed to parse video metadata: " ++ m))
  | .error (.jsonDecodeError m) => .error (.runtimeError ("Failed to parse video metadata: " ++ m))
  | r => r

/-- Frame-rate slice of `VideoProcessor._get_metadata`, from the probed
`r_frame_rate` string through the surrounding exception handler. -/
def getMetadataFps (fps_str : List Char) : Except PyErr ℚ :=
  metadataCatch (fpsFromStr fps_str)

-- Shared inversion and evaluation lemmas.

theorem wrapTry_ok {α : Type} {x : Except PyErr α} {a : α}
    (h : wrapTry x = .ok a) : x = .ok a := by
  match x with
  | .error e => simp [wrapTry] at h
  | .ok b => simpa [wrapTry] using h

theorem pyIndex_ok_bounds {α : Type} {l : List α} {i : ℤ} {x : α}
    (h : pyIndex l i = .ok x) : -(l.length : ℤ) ≤ i ∧ i < l.length := by
  unfold pyIndex at h
  by_cases h1 : 0 ≤ i ∧ i < (l.length : ℤ)
  · omega
  · rw [dif_neg h1] at h
    by_cases h2 : -(l.length : ℤ) ≤ i ∧ i < 0
    · omega
    · rw [dif_neg h2] at h
      cases h

theorem pyIndex_ok_of_nonneg {α : Type} {l : List α} {i : ℤ} {x : α}
    (h : pyIndex l i = .ok x) (hi : 0 ≤ i) : l.get? i.toNat = some x := by
  unfold pyIndex at h
  by_cases h1 : 0 ≤ i ∧ i < (l.length : ℤ)
  · rw [dif_pos h1] at h
    cases h
    exact List.get?_eq_get (by omega)
  · rw [dif_neg h1] at h
    by_cases h2 : -(l.length : ℤ) ≤ i ∧ i < 0
    · omega
    · rw [dif_neg h2] at h
      cases h

theorem exceptBind_ok {α β : Type} {x : Except PyErr α} {f : α → Except PyErr β} {b : β}
    (h : (x >>= f) = .ok b) : ∃ a, x = .ok a ∧ f a = .ok b := by
  cases x with
  | error e => simp [Bind.bind, Except.bind] at h
  | ok a => exact ⟨a, rfl, by simpa [Bind.bind, Except.bind] using h⟩

theorem buildRecord_ok {frame_paths : List String} {response_text : String}
    {analysis : JVal} {r : FrameAnalysis}
    (h : buildRecord frame_paths response_text analysis = .ok r) :
    pyIndex frame_paths r.best_frame_index = .ok r.best_frame_path := by
  unfold buildRecord at h
  obtain ⟨bi, h1, h⟩ := exceptBind_ok h
  obtain ⟨i, h2, h⟩ := exceptBind_ok h
  obtain ⟨p, h3, h⟩ := exceptBind_ok h
  obtain ⟨reas, h4, h⟩ := exceptBind_ok h
  obtain ⟨sc, h5, h⟩ := exceptBind_ok h
  simp only [pure, Except.pure, Except.ok.injEq] at h
  rw [← h]
  exact h3

theorem reSearchBrace_none_of_no_pair :
    ∀ cs : List Char, hasBracePair cs = false → reSearchBrace cs = none := by
  intro cs
  induction cs with
  | nil => intro _; rfl
  | cons c rest ih =>
    intro h
    simp only [hasBracePair, Bool.or_eq_false_iff, Bool.and_eq_false_iff] at h
    unfold reSearchBrace
    obtain ⟨h1, h2⟩ := h
    have hcond : ¬ ((c = '{' && rest.contains '}') = true) := by
      rcases h1 with h1 | h1
      · simp [h1]
      · intro hc
        rw [Bool.and_eq_true] at hc
        rw [h1] at hc
        exact Bool.false_ne_true hc.2
    rw [if_neg hcond]
    exact ih h2

theorem timestampsE_one (s u : ℚ) :
    timestampsE s u 1 = .error (.zeroDivisionError "float division by zero") := by
  have hr : pyRange 1 = [0] := rfl
  unfold timestampsE
  rw [hr]
  have hden : (((1 - 1 : ℤ) : ℚ)) = 0 := by norm_num
  simp only [mapME, pyDivFloat, hden, if_pos]

theorem extract_frames_result_all_ok
    (duration : ℚ) (numFrames : ℤ) (skipStart skipEnd : ℚ)
    (exitOk fileCreated : ℕ → Bool) (dir : List Char)
    (h2 : 2 ≤ numFrames) (hpos : 0 < duration - skipStart - skipEnd)
    (hok : ∀ i, exitOk i = true) (hfc : ∀ i, fileCreated i = true) :
    (extract_frames duration numFrames skipStart skipEnd exitOk fileCreated dir).result
      = .ok (pySortStrs (chronPaths dir numFrames.toNat)) := by
  have hne1 : numFrames ≠ 1 := by omega
  have hnle : ¬ (duration - skipStart - skipEnd ≤ 0) := not_le.mpr hpos
  unfold extract_frames
  rw [if_neg hnle]
  split
  next e heq =>
    rw [timestampsE_ok_of_ne_one hne1] at heq
    cases heq
  next ts heq =>
    rw [timestampsE_ok_of_ne_one hne1] at heq
    injection heq with hts
    subst hts
    unfold pyRange
    rw [enumFrom_range_map, extractLoop_all_ok _ _ _ hok hfc]
    simp only [List.nil_append, List.map_map]
    have hmap : (List.range numFrames.toNat).map
        ((fun p : ℕ × ℚ => framePathChars dir p.1)
          ∘ (fun i : ℕ => (i + 1, skipStart + (i : ℚ) * (duration - skipStart - skipEnd)
                / ((numFrames : ℚ) - 1))))
        = chronPaths dir numFrames.toNat := by
      unfold chronPaths
      apply List.map_congr_left
      intro i _
      rfl
    rw [hmap]
    have hne : (chronPaths dir numFrames.toNat).isEmpty = false := by
      unfold chronPaths
      rw [List.isEmpty_eq_false_iff_exists_mem]
      refine ⟨framePathChars dir 1, ?_⟩
      apply List.mem_map.mpr
      exact ⟨0, List.mem_range.mpr (by omega), rfl⟩
    rw [hne]
    simp

-- Claim theorems.

/-- C1: the claim states that a probed frame-rate string `"num/den"` with
`den = 0` makes `_get_metadata` fail with a wrapped `RuntimeError`
(`ProbeError`) and never lets a raw division-by-zero exception escape.
The code violates this: on `r_frame_rate = "30/0"` the fps computation
raises `ZeroDivisionError`, which is absent from the caught tuple
`(json.JSONDecodeError, KeyError, ValueError)` and therefore escapes
unwrapped — while the spec and the method's own docstring require a
`RuntimeError`. -/
theorem C1_probe_zero_division_escapes :
    getMetadataFps "30/0".data
        = .error (.zeroDivisionError "float division by zero")
      ∧ ∀ m, PyErr.zeroDivisionError "float division by zero" ≠ .runtimeError m :=
  ⟨rfl, fun _ h => PyErr.noConfusion h⟩

/-- C4: `extract_frames` fails with a `ValueError` (the validation error)
exactly when `duration − skip_start − skip_end ≤ 0`, and in that case no
ffmpeg extraction call has been issued. -/
theorem C4_validation_error_iff
    (duration : ℚ) (numFrames : ℤ) (skipStart skipEnd : ℚ)
    (exitOk fileCreated : ℕ → Bool) (dir : List Char) :
    ((∃ m, (extract_frames duration numFrames skipStart skipEnd exitOk fileCreated dir).result
        = .error (.valueError m))
      ↔ duration - skipStart - skipEnd ≤ 0)
    ∧ (duration - skipStart - skipEnd ≤ 0 →
        (extract_frames duration numFrames skipStart skipEnd exitOk fileCreated dir).calls = []) := by
  by_cases hu : duration - skipStart - skipEnd ≤ 0
  · refine ⟨⟨fun _ => hu, fun _ => ?_⟩, fun _ => ?_⟩
    · exact ⟨"Video too short after skipping start/end", by unfold extract_frames; rw [if_pos hu]⟩
    · unfold extract_frames
      rw [if_pos hu]
  · refine ⟨⟨?_, fun h => absurd h hu⟩, fun h => absurd h hu⟩
    rintro ⟨m, hm⟩
    exfalso
    unfold extract_frames at hm
    rw [if_neg hu] at hm
    revert hm
    split
    next e heq =>
      intro hm
      have hz := timestampsE_error_is_zeroDivision heq
      subst hz
      simp at hm
    next ts heq =>
      intro hm
      exact extractLoop_result_not_valueError exitOk fileCreated dir _ _ _ m hm

/-- C4 witness: on a 1-second video with 2-second skips the usable span is
non-positive, the run fails with the validation `ValueError`, and the call
list is empty. -/
theorem C4_witness :
    ((1 : ℚ) - 2 - 2 ≤ 0)
    ∧ (extract_frames 1 10 2 2 (fun _ => true) (fun _ => true) "d".data).calls = [] := by
  have hu : (1 : ℚ) - 2 - 2 ≤ 0 := by norm_num
  exact ⟨hu,
    (C4_validation_error_iff 1 10 2 2 (fun _ => true) (fun _ => true) "d".data).2 hu⟩

/-- C9: the CLI resolution table maps `720p` to `(1280, 720)` and `1080p`
to `(1920, 1080)`; for a portrait source (height strictly greater than
width) the pair is swapped before composition, otherwise it is used
unchanged; in particular a 1080×1920 source with `--resolution 720p`
targets 720×1280. -/
theorem C9_resolution_mapping :
    res_map "720p" = some (1280, 720)
    ∧ res_map "1080p" = some (1920, 1080)
    ∧ (∀ (r : String) (w h : ℤ) (base : ℤ × ℤ), res_map r = some base → w < h →
        generateTargetResolution r w h = some (base.2, base.1))
    ∧ (∀ (r : String) (w h : ℤ) (base : ℤ × ℤ), res_map r = some base → h ≤ w →
        generateTargetResolution r w h = some base)
    ∧ generateTargetResolution "720p" 1080 1920 = some (720, 1280) := by
  refine ⟨rfl, rfl, ?_, ?_, rfl⟩
  · intro r w h base hbase hwh
    unfold generateTargetResolution
    rw [hbase]
    simp [hwh]
  · intro r w h base hbase hwh
    unfold generateTargetResolution
    rw [hbase]
    simp [not_lt.mpr hwh]

/-- C9 witness: the landscape case applied at a 1920×1080 source with
`720p` keeps the base pair. -/
theorem C9_witness :
    res_map "720p" = some (1280, 720)
    ∧ ((1080 : ℤ) ≤ 1920)
    ∧ generateTargetResolution "720p" 1920 1080 = some (1280, 720) :=
  ⟨rfl, by decide,
    C9_resolution_mapping.2.2.2.1 "720p" 1920 1080 (1280, 720) rfl (by decide)⟩

/-- C10: calling `extract_frames` with `num_frames = 1` on a video with
positive usable span raises `ZeroDivisionError` from the timestamp
computation (division by `num_frames − 1`), which is neither the
validation `ValueError` nor the extraction `RuntimeError`; the CLI
`generate --frames 1` reaches this with the default 2-second skips. -/
theorem C10_frames_one_zero_division
    (duration : ℚ) (exitOk fileCreated : ℕ → Bool) (dir : List Char)
    (hpos : 0 < duration - 2 - 2) :
    (generateExtractStep 1 duration exitOk fileCreated dir).result
        = .error (.zeroDivisionError "float division by zero")
    ∧ (∀ m, (generateExtractStep 1 duration exitOk fileCreated dir).result
        ≠ .error (.valueError m))
    ∧ (∀ m, (generateExtractStep 1 duration exitOk fileCreated dir).result
        ≠ .error (.runtimeError m)) := by
  have hnle : ¬ (duration - 2 - 2 ≤ 0) := not_le.mpr hpos
  have hres : (generateExtractStep 1 duration exitOk fileCreated dir).result
      = .error (.zeroDivisionError "float division by zero") := by
    unfold generateExtractStep extract_frames
    rw [if_neg hnle]
    revert hnle
    split
    next e heq =>
      intro _
      rw [timestampsE_one] at heq
      injection heq with he
      rw [← he]
    next ts heq =>
      intro _
      rw [timestampsE_one] at heq
      cases heq
  refine ⟨hres, fun m h => ?_, fun m h => ?_⟩
  · rw [hres] at h
    exact PyErr.noConfusion (Except.error.inj h)
  · rw [hres] at h
    exact PyErr.noConfusion (Except.error.inj h)

/-- C10 witness: a 10-second video, `--frames 1`: the result is the raw
`ZeroDivisionError`. -/
theorem C10_witness :
    ((0 : ℚ) < 10 - 2 - 2)
    ∧ (generateExtractStep 1 10 (fun _ => true) (fun _ => true) "d".data).result
        = .error (.zeroDivisionError "float division by zero") := by
  have hpos : (0 : ℚ) < 10 - 2 - 2 := by norm_num
  exact ⟨hpos,
    (C10_frames_one_zero_division 10 (fun _ => true) (fun _ => true) "d".data hpos).1⟩

/-- C2 counterexample: the claim asserts that every returned record
satisfies `0 ≤ best_frame_index < len(frame_paths)` with
`best_frame_path = frame_paths[best_frame_index]`. With two frames and the
model response `{"best_frame_index": -1}` (whose brace span `json.loads`
parses to exactly that object), `analyze_frames` returns successfully with
`best_frame_index = -1` — Python negative indexing silently selects the
last frame instead of raising — so the `0 ≤ best_frame_index` part of the
claimed invariant is false. -/
theorem C2_counterexample :
    analyze_frames ["a.jpg", "b.jpg"] "\x7b\"best_frame_index\": -1\x7d"
        (fun _ => .ok (JVal.obj [("best_frame_index", .num (-1))]))
      = .ok ⟨-1, "b.jpg", .str "", .arr [], "\x7b\"best_frame_index\": -1\x7d"⟩
    ∧ ¬ ((0 : ℤ) ≤ -1) :=
  ⟨rfl, by decide⟩

/-- C2 (amended): for every non-empty frame list and every model response
for which `analyze_frames` returns a record, the record satisfies
`-len ≤ best_frame_index < len` and `best_frame_path` is the element that
Python indexing selects for `best_frame_index` (counting from the end when
negative); in particular the claimed invariant
`best_frame_path = frame_paths[best_frame_index]` with a valid 0-based
index holds whenever `best_frame_index ≥ 0`. -/
theorem C2_python_index_invariant
    (frame_paths : List String) (response_text : String)
    (loads : String → Except Unit JVal) (r : FrameAnalysis)
    (h : analyze_frames frame_paths response_text loads = .ok r) :
    -(frame_paths.length : ℤ) ≤ r.best_frame_index
    ∧ r.best_frame_index < frame_paths.length
    ∧ pyIndex frame_paths r.best_frame_index = .ok r.best_frame_path
    ∧ (0 ≤ r.best_frame_index →
        frame_paths.get? r.best_frame_index.toNat = some r.best_frame_path) := by
  unfold analyze_frames at h
  by_cases he : frame_paths.isEmpty
  · rw [if_pos he] at h
    cases h
  · rw [if_neg he] at h
    have hidx : pyIndex frame_paths r.best_frame_index = .ok r.best_frame_path := by
      revert h
      split
      · intro h
        revert h
        split
        · intro h
          have := wrapTry_ok h
          cases this
        · intro h
          exact buildRecord_ok (wrapTry_ok h)
      · intro h
        exact buildRecord_ok (wrapTry_ok h)
    have hb := pyIndex_ok_bounds hidx
    exact ⟨hb.1, hb.2, hidx, fun hnn => pyIndex_ok_of_nonneg hidx hnn⟩

/-- C2 witness: with two frames and a response whose parsed object names
index 1, the call returns and Python indexing confirms
`best_frame_path = frame_paths[1]`. -/
theorem C2_witness :
    analyze_frames ["a.jpg", "b.jpg"] "\x7b\"best_frame_index\": 1\x7d"
        (fun _ => .ok (JVal.obj [("best_frame_index", .num 1)]))
      = .ok ⟨1, "b.jpg", .str "", .arr [], "\x7b\"best_frame_index\": 1\x7d"⟩
    ∧ pyIndex ["a.jpg", "b.jpg"] (1 : ℤ) = .ok "b.jpg" :=
  ⟨rfl,
    (C2_python_index_invariant ["a.jpg", "b.jpg"] "\x7b\"best_frame_index\": 1\x7d"
      (fun _ => .ok (JVal.obj [("best_frame_index", .num 1)]))
      ⟨1, "b.jpg", .str "", .arr [], "\x7b\"best_frame_index\": 1\x7d"⟩ rfl).2.2.1⟩

/-- C6: when the model response contains no `{...}` region, `analyze_frames`
does not raise: it returns `best_frame_index = 0`, the first frame as
`best_frame_path`, the raw response text as the reasoning, and an empty
scores list. -/
theorem C6_no_json_fallback
    (p : String) (rest : List String) (response_text : String)
    (loads : String → Except Unit JVal)
    (hnb : hasBracePair response_text.data = false) :
    analyze_frames (p :: rest) response_text loads
      = .ok ⟨0, p, .str response_text, .arr [], response_text⟩ := by
  unfold analyze_frames
  rw [if_neg (by simp), reSearchBrace_none_of_no_pair _ hnb]
  have hget : pyIndex (p :: rest) (0 : ℤ) = .ok p := by
    unfold pyIndex
    rw [dif_pos ⟨le_refl 0, by simp⟩]
    rfl
  have hrec : buildRecord (p :: rest) response_text
      (JVal.obj [("best_frame_index", .num 0), ("reasoning", .str response_text),
        ("frames", .arr [])])
      = .ok ⟨0, p, .str response_text, .arr [], response_text⟩ := by
    unfold buildRecord
    have h1 : pyDictGet
        (JVal.obj [("best_frame_index", .num 0), ("reasoning", .str response_text),
          ("frames", .arr [])]) "best_frame_index" (.num 0) = .ok (.num 0) := rfl
    have h2 : asIndex (JVal.num 0) = .ok 0 := rfl
    have h4 : pyDictGet
        (JVal.obj [("best_frame_index", .num 0), ("reasoning", .str response_text),
          ("frames", .arr [])]) "reasoning" (.str "") = .ok (.str response_text) := rfl
    have h5 : pyDictGet
        (JVal.obj [("best_frame_index", .num 0), ("reasoning", .str response_text),
          ("frames", .arr [])]) "frames" (.arr []) = .ok (.arr []) := rfl
    have hbind : ∀ (α β : Type) (a : α) (f : α → Except PyErr β),
        ((Except.ok a : Except PyErr α) >>= f) = f a := fun _ _ _ _ => rfl
    rw [h1, hbind, h2, hbind, hget, hbind, h4, hbind, h5, hbind]
    rfl
  rw [hrec]
  rfl

/-- C6 witness: one frame and a braceless response produce exactly the
fallback record. -/
theorem C6_witness :
    hasBracePair "no json here".data = false
    ∧ analyze_frames ["f1.jpg"] "no json here" (fun _ => .error ())
      = .ok ⟨0, "f1.jpg", .str "no json here", .arr [], "no json here"⟩ :=
  ⟨by decide,
    C6_no_json_fallback "f1.jpg" [] "no json here" (fun _ => .error ()) (by decide)⟩

/-- C8: the per-call style override merge of `compose` is shallow — every
field named by the override takes the override's value, every other field
keeps the preset's value — and the composer's stored preset dict is the
same after the call as before (the update is applied to a copy). -/
theorem C8_shallow_merge
    (stored : StyleDict) (c : StyleDict) (k : String) :
    ((∀ v, c k = some v → (composeStyleMerge stored (some c)).1 k = some v)
      ∧ (c k = none → (composeStyleMerge stored (some c)).1 k = stored k))
    ∧ (composeStyleMerge stored (some c)).2 = stored := by
  refine ⟨⟨?_, ?_⟩, rfl⟩
  · intro v hv
    simp [composeStyleMerge, hv]
  · intro hv
    simp [composeStyleMerge, hv]

/-- C8 witness: overriding only `font_size_main` on the `youtube` preset
gives that field the override value, keeps `shadow` at the preset value,
and leaves the stored preset untouched. -/
theorem C8_witness :
    ((fun k => if k = "font_size_main" then some (StyleVal.int 100) else none) :
        StyleDict) "font_size_main" = some (StyleVal.int 100)
    ∧ (composeStyleMerge youtubeStyle
        (some (fun k => if k = "font_size_main" then some (StyleVal.int 100) else none))).1
        "font_size_main" = some (StyleVal.int 100)
    ∧ (composeStyleMerge youtubeStyle
        (some (fun k => if k = "font_size_main" then some (StyleVal.int 100) else none))).1
        "shadow" = youtubeStyle "shadow"
    ∧ (composeStyleMerge youtubeStyle
        (some (fun k => if k = "font_size_main" then some (StyleVal.int 100) else none))).2
        = youtubeStyle :=
  ⟨rfl,
    (C8_shallow_merge youtubeStyle
      (fun k => if k = "font_size_main" then some (StyleVal.int 100) else none)
      "font_size_main").1.1 (StyleVal.int 100) rfl,
    (C8_shallow_merge youtubeStyle
      (fun k => if k = "font_size_main" then some (StyleVal.int 100) else none)
      "shadow").1.2 rfl,
    (C8_shallow_merge youtubeStyle
      (fun k => if k = "font_size_main" then some (StyleVal.int 100) else none)
      "shadow").2⟩

-- Word-wrap loop invariant.

theorem wrapGo_mem (measure : String → ℤ) (maxWidth : ℤ) (W : List String) :
    ∀ (ws currentLine lines : List String),
      (∀ w ∈ ws, w ∈ W) →
      (currentLine = [] ∨ measure (String.intercalate " " currentLine) ≤ maxWidth
        ∨ ∃ w ∈ W, currentLine = [w]) →
      (∀ l ∈ lines, measure l ≤ maxWidth ∨ l ∈ W) →
      ∀ l ∈ wrapGo measure maxWidth ws currentLine lines,
        measure l ≤ maxWidth ∨ l ∈ W := by
  intro ws
  induction ws with
  | nil =>
    intro currentLine lines _ hinv hlines l hl
    unfold wrapGo at hl
    by_cases hc : currentLine.isEmpty
    · rw [if_pos hc] at hl
      exact hlines l hl
    · rw [if_neg hc] at hl
      rcases List.mem_append.mp hl with h | h
      · exact hlines l h
      · have hle : l = String.intercalate " " currentLine := by simpa using h
        subst hle
        rcases hinv with h0 | hm | ⟨w, hw, hcur⟩
        · rw [h0] at hc
          simp at hc
        · exact Or.inl hm
        · rw [hcur]
          exact Or.inr hw
  | cons w ws ih =>
    intro currentLine lines hws hinv hlines l hl
    have hwW : w ∈ W := hws w (List.mem_cons_self w ws)
    have hws2 : ∀ x ∈ ws, x ∈ W := fun x hx => hws x (List.mem_cons_of_mem w hx)
    unfold wrapGo at hl
    by_cases h1 : measure (String.intercalate " " (currentLine ++ [w])) ≤ maxWidth
    · rw [if_pos h1] at hl
      exact ih (currentLine ++ [w]) lines hws2 (Or.inr (Or.inl h1)) hlines l hl
    · rw [if_neg h1] at hl
      by_cases h2 : currentLine.isEmpty
      · rw [if_pos h2] at hl
        exact ih [w] lines hws2 (Or.inr (Or.inr ⟨w, hwW, rfl⟩)) hlines l hl
      · rw [if_neg h2] at hl
        apply ih [w] (lines ++ [String.intercalate " " currentLine]) hws2
          (Or.inr (Or.inr ⟨w, hwW, rfl⟩)) _ l hl
        intro x hx
        rcases List.mem_append.mp hx with h | h
        · exact hlines x h
        · have hxe : x = String.intercalate " " currentLine := by simpa using h
          subst hxe
          rcases hinv with h0 | hm | ⟨w2, hw2, hcur⟩
          · rw [h0] at h2
            simp at h2
          · exact Or.inl hm
          · rw [hcur]
            exact Or.inr hw2

/-- C5: every line produced by the greedy word-wrap measures at most the
maximum width, except a line that is a single word of the input (an
unsplittable token passes through as its own line); `compose` calls it
with `composeMaxWidth` of the target width, its 90%. -/
theorem C5_wrap_width_bound
    (measure : String → ℤ) (text : String) (maxWidth : ℤ)
    (_hpos : 0 < maxWidth) :
    ∀ l ∈ wrap_text measure text maxWidth,
      measure l ≤ maxWidth ∨ l ∈ wordsOf text := by
  intro l hl
  exact wrapGo_mem measure maxWidth (wordsOf text) (wordsOf text) [] []
    (fun w hw => hw) (Or.inl rfl) (by intro x hx; cases hx) l hl

/-- C5 witness: with character-count as the measure and max width
`composeMaxWidth 13 = 11`, the produced line `"hello world"` fits the
bound, and the long single word is carried through as its own line. -/
theorem C5_witness :
    ((0 : ℤ) < (composeMaxWidth 13 : ℕ))
    ∧ ("hello world" ∈ wrap_text (fun s => (s.length : ℤ))
        "hello world verylongsingleword ok" (composeMaxWidth 13))
    ∧ ((fun s : String => (s.length : ℤ)) "hello world" ≤ (composeMaxWidth 13 : ℕ)
        ∨ "hello world" ∈ wordsOf "hello world verylongsingleword ok")
    ∧ ("verylongsingleword" ∈ wrap_text (fun s => (s.length : ℤ))
        "hello world verylongsingleword ok" (composeMaxWidth 13))
    ∧ ((fun s : String => (s.length : ℤ)) "verylongsingleword" ≤ (composeMaxWidth 13 : ℕ)
        ∨ "verylongsingleword" ∈ wordsOf "hello world verylongsingleword ok") :=
  ⟨by decide, by decide,
    C5_wrap_width_bound (fun s => (s.length : ℤ))
      "hello world verylongsingleword ok" (composeMaxWidth 13) (by decide)
      "hello world" (by decide),
    by decide,
    C5_wrap_width_bound (fun s => (s.length : ℤ))
      "hello world verylongsingleword ok" (composeMaxWidth 13) (by decide)
      "verylongsingleword" (by decide)⟩

/-- C3: for `count ≥ 2` and positive usable span, with every ffmpeg call
succeeding and producing its file, `extract_frames` returns exactly `count`
frame paths; the timestamps are `skipStart + i·usable/(count−1)` for
`i ∈ [0, count−1]`, so the first is `skipStart` and the last is
`duration − skipEnd`. -/
theorem C3_extract_even_count_and_timestamps
    (duration : ℚ) (numFrames : ℤ) (skipStart skipEnd : ℚ)
    (exitOk fileCreated : ℕ → Bool) (dir : List Char)
    (h2 : 2 ≤ numFrames)
    (hpos : 0 < duration - skipStart - skipEnd)
    (hok : ∀ i, exitOk i = true) (hfc : ∀ i, fileCreated i = true) :
    (∃ ps, (extract_frames duration numFrames skipStart skipEnd exitOk fileCreated dir).result
        = .ok ps ∧ ps.length = numFrames.toNat)
    ∧ timestampsE skipStart (duration - skipStart - skipEnd) numFrames
        = .ok ((List.range numFrames.toNat).map
            (fun (i : ℕ) => skipStart + (i : ℚ) * (duration - skipStart - skipEnd)
              / ((numFrames : ℚ) - 1)))
    ∧ ((List.range numFrames.toNat).map
        (fun (i : ℕ) => skipStart + (i : ℚ) * (duration - skipStart - skipEnd)
          / ((numFrames : ℚ) - 1))).head? = some skipStart
    ∧ ((List.range numFrames.toNat).map
        (fun (i : ℕ) => skipStart + (i : ℚ) * (duration - skipStart - skipEnd)
          / ((numFrames : ℚ) - 1))).getLast? = some (duration - skipEnd) := by
  obtain ⟨m, hm⟩ : ∃ m, numFrames.toNat = m + 1 := ⟨numFrames.toNat - 1, by omega⟩
  have hmq : (m : ℚ) = (numFrames : ℚ) - 1 := by
    have hz : ((numFrames.toNat : ℤ)) = numFrames := Int.toNat_of_nonneg (by omega)
    have : ((m : ℤ)) + 1 = numFrames := by rw [← hz, hm]; push_cast; ring
    have hq : ((m : ℚ)) + 1 = (numFrames : ℚ) := by exact_mod_cast this
    linarith
  have hd : ((numFrames : ℚ) - 1) ≠ 0 := by
    intro hc
    have h1q : (numFrames : ℚ) = 1 := by linarith
    have : numFrames = 1 := by exact_mod_cast h1q
    omega
  refine ⟨⟨_, extract_frames_result_all_ok duration numFrames skipStart skipEnd
      exitOk fileCreated dir h2 hpos hok hfc, ?_⟩,
    timestampsE_ok_of_ne_one (by omega), ?_, ?_⟩
  · rw [pySortStrs_length]
    unfold chronPaths
    simp
  · rw [hm, List.range_succ_eq_map]
    simp only [List.map_cons, List.head?_cons, Option.some.injEq]
    norm_num
  · rw [hm, List.range_succ, List.map_append]
    simp only [List.map_cons, List.map_nil]
    rw [List.getLast?_concat]
    congr 1
    rw [hmq, mul_div_cancel_left₀ _ hd]
    ring

/-- C3 witness: a 5-second video with zero skips and 3 frames returns
exactly 3 paths. -/
theorem C3_witness :
    ((2 : ℤ) ≤ 3) ∧ ((0 : ℚ) < 5 - 0 - 0)
    ∧ (∃ ps, (extract_frames 5 3 0 0 (fun _ => true) (fun _ => true) "d".data).result
        = .ok ps ∧ ps.length = (3 : ℤ).toNat) :=
  ⟨by decide, by simp,
    (C3_extract_even_count_and_timestamps 5 3 0 0 (fun _ => true) (fun _ => true)
      "d".data (by decide) (by simp) (fun _ => rfl) (fun _ => rfl)).1⟩

/-- C7 counterexample: the claim asserts lexical sorting reproduces
chronological order for every frame count the operation accepts. The
operation accepts `num_frames = 10000` (the call succeeds), yet the
chronological name sequence is not lexically ascending there:
`frame_10000.jpg` sorts before `frame_9999.jpg` because `%04d` stops
zero-padding at five digits. -/
theorem C7_counterexample :
    (∃ ps, (extract_frames 50000 10000 2 2 (fun _ => true) (fun _ => true)
        "frames_temp".data).result = .ok ps)
    ∧ ¬ List.Pairwise (fun a b => pyStrLt a b = true)
        (chronPaths "frames_temp".data 10000) := by
  constructor
  · exact ⟨_, extract_frames_result_all_ok 50000 10000 2 2 (fun _ => true) (fun _ => true)
      "frames_temp".data (by decide) (by norm_num) (fun _ => rfl) (fun _ => rfl)⟩
  · intro hp
    rw [List.pairwise_iff_getElem] at hp
    have h := hp 9998 9999 (by simp [chronPaths]) (by simp [chronPaths]) (by omega)
    simp only [chronPaths, List.getElem_map, List.getElem_range] at h
    exact absurd h (by decide)

/-- C7 (amended): for every accepted frame count up to 9999, the
chronological frame paths are strictly lexically ascending, and the list
`extract_frames` returns (Python `sorted` of the extracted paths) is
exactly the chronological sequence; from 10000 frames on, five-digit
sequence numbers break the zero-padded lexical order (see the
counterexample). -/
theorem C7_lexical_order_upto_9999
    (dir : List Char) (duration : ℚ) (numFrames : ℤ) (skipStart skipEnd : ℚ)
    (exitOk fileCreated : ℕ → Bool)
    (h2 : 2 ≤ numFrames) (h9999 : numFrames ≤ 9999)
    (hpos : 0 < duration - skipStart - skipEnd)
    (hok : ∀ i, exitOk i = true) (hfc : ∀ i, fileCreated i = true) :
    List.Pairwise (fun a b => pyStrLt a b = true) (chronPaths dir numFrames.toNat)
    ∧ (extract_frames duration numFrames skipStart skipEnd exitOk fileCreated dir).result
        = .ok (chronPaths dir numFrames.toNat) := by
  have hpw : List.Pairwise (fun a b => pyStrLt a b = true)
      (chronPaths dir numFrames.toNat) := by
    rw [List.pairwise_iff_getElem]
    intro i j hi hj hij
    simp only [chronPaths, List.length_map, List.length_range] at hi hj
    simp only [chronPaths, List.getElem_map, List.getElem_range]
    exact framePathChars_lt (by omega) (by omega)
  refine ⟨hpw, ?_⟩
  rw [extract_frames_result_all_ok duration numFrames skipStart skipEnd
    exitOk fileCreated dir h2 hpos hok hfc, pySortStrs_of_pairwise _ hpw]

/-- C7 witness: with 3 frames the returned list is the chronological
sequence, lexically ascending. -/
theorem C7_witness :
    ((2 : ℤ) ≤ 3) ∧ ((3 : ℤ) ≤ 9999) ∧ ((0 : ℚ) < 5 - 0 - 0)
    ∧ (extract_frames 5 3 0 0 (fun _ => true) (fun _ => true) "d".data).result
        = .ok (chronPaths "d".data (3 : ℤ).toNat) :=
  ⟨by decide, by decide, by simp,
    (C7_lexical_order_upto_9999 "d".data 5 3 0 0 (fun _ => true) (fun _ => true)
      (by decide) (by decide) (by simp) (fun _ => rfl) (fun _ => rfl)).2⟩
